import Mathlib

/-!
Shallow embedding of `third_party/renderman-24/plugin/rmanDiscovery/rmanDiscovery.cpp`
(the RenderMan shader-node discovery plugin) and proofs about its
discovery/aliasing pipeline.

External collaborators that the plugin only calls through an interface
(`NdrFsHelpersDiscoverNodes`, the filesystem walker, and
`RmanArgsParserPlugin::ParseShaderAliases`, the alias-file parser) are
modelled as function parameters, matching the spec's description of them as
injected capabilities.  The discovery logic itself — the filter/alias
extraction pass built on `std::remove_if` and the alias back-fill pass — is
translated statement by statement from the source.
-/

set_option autoImplicit false

namespace RmanDiscovery

/-- Modelled from the spec: the `DiscoveryResult` record of §3 (the
`NdrNodeDiscoveryResult` type lives in `pxr/usd/ndr`, outside this file).
Fields: `identifier`, `version`, `family`, `sourceType`, `uri`, and
`aliases` (empty by default). -/
structure NdrNodeDiscoveryResult where
  identifier : String
  version : String
  family : String
  sourceType : String
  uri : String
  aliases : List String
deriving DecidableEq

/-- The alias map `std::map<NdrIdentifier, NdrTokenVec>`, modelled as an
association list from identifier to alias sequence; lookup returns the
entry for a key. -/
abbrev AliasMap := List (String × List String)

/-- Lookup of an identifier in the alias map (`aliasMap.find(identifier)`). -/
def aliasMapFind (m : AliasMap) (ident : String) : Option (List String) :=
  match m with
  | [] => none
  | (k, v) :: rest => if k = ident then some v else aliasMapFind rest ident

/-- Modelled from the spec: the injected parser capability
(`RmanArgsParserPlugin::ParseShaderAliases`, defined outside this file)
that contributes `identifier -> [alias]` entries to the shared alias map. -/
abbrev AliasParser := NdrNodeDiscoveryResult → AliasMap → AliasMap

/-- The `_allowedExtensionTokens` private tokens, in declaration order,
converted to strings as `TfToStringVector(allTokens)` does. -/
def allowedExtensionStrings : List String := ["args", "oso", "sdraliases"]

/-- The static `aliasExtension` string of
`_GetAliasesFromAliasesDiscoveryResult`: `"." + sdraliases`. -/
def aliasExtension : String := "." ++ "sdraliases"

/-- Modelled from the spec: `TfStringEndsWith` (external Tf string helper),
true exactly when `s` ends with the given suffix string. -/
def tfStringEndsWith (s sfx : String) : Bool :=
  decide (s.data.drop (s.data.length - sfx.data.length) = sfx.data)

/-- Translation of `_GetAliasesFromAliasesDiscoveryResult`: if the result's
`uri` ends with the alias extension, parse it into the alias map and return
true (so the caller filters it out); otherwise leave the map alone and
return false.  The C++ mutates the map through a pointer; here the updated
map is returned alongside the flag. -/
def getAliasesFromAliasesDiscoveryResult (parse : AliasParser)
    (dr : NdrNodeDiscoveryResult) (m : AliasMap) : Bool × AliasMap :=
  if tfStringEndsWith dr.uri aliasExtension then (true, parse dr m) else (false, m)

/-- The plugin's member state: `_searchPaths`, `_allowedExtensions`,
`_followSymlinks`, `_filter` (an optional predicate, `std::function`). -/
structure RmanDiscoveryPlugin where
  searchPaths : List String
  allowedExtensions : List String
  followSymlinks : Bool
  filter : Option (NdrNodeDiscoveryResult → Bool)

/-- Translation of the `filterPredicate` lambda in `DiscoverNodes`: alias
files are extracted into the map and removed; otherwise, with a filter
configured, a result is removed exactly when the filter returns false;
without a filter nothing further is removed.  Returns the removal decision
together with the updated alias map. -/
def filterPredicate (parse : AliasParser)
    (filter : Option (NdrNodeDiscoveryResult → Bool))
    (dr : NdrNodeDiscoveryResult) (m : AliasMap) : Bool × AliasMap :=
  let step := getAliasesFromAliasesDiscoveryResult parse dr m
  if step.1 then (true, step.2)
  else
    match filter with
    | some f => (!(f dr), step.2)
    | none => (false, step.2)

/-- The `result.erase(std::remove_if(...), result.end())` pass: the
predicate is applied to each element in order (threading the alias map
through its side effect) and the elements for which it returned false are
kept in their original order. -/
def removePass (parse : AliasParser)
    (filter : Option (NdrNodeDiscoveryResult → Bool)) :
    List NdrNodeDiscoveryResult → AliasMap →
      List NdrNodeDiscoveryResult × AliasMap
  | [], m => ([], m)
  | dr :: rest, m =>
    let step := filterPredicate parse filter dr m
    let tail := removePass parse filter rest step.2
    if step.1 then tail else (dr :: tail.1, tail.2)

/-- The body of the back-fill loop for a single result: if the result's
identifier is found in the alias map, its `aliases` field is overwritten
with the map entry. -/
def backfillOne (m : AliasMap) (dr : NdrNodeDiscoveryResult) :
    NdrNodeDiscoveryResult :=
  match aliasMapFind m dr.identifier with
  | some al => { dr with aliases := al }
  | none => dr

/-- The back-fill pass of `DiscoverNodes`: guarded by
`if (!aliasMap.empty())`, each remaining result whose identifier is a key
of the alias map gets its `aliases` field set to the map entry. -/
def backfillAliases (m : AliasMap) (rs : List NdrNodeDiscoveryResult) :
    List NdrNodeDiscoveryResult :=
  if m.isEmpty then rs else rs.map (backfillOne m)

/-- Translation of `RmanDiscoveryPlugin::DiscoverNodes`, taking the raw
result sequence produced by the (external) `NdrFsHelpersDiscoverNodes`
walker as input: run the remove/extract pass starting from an empty alias
map, then back-fill aliases into the remaining results. -/
def DiscoverNodes (parse : AliasParser) (p : RmanDiscoveryPlugin)
    (rs : List NdrNodeDiscoveryResult) : List NdrNodeDiscoveryResult :=
  let pass := removePass parse p.filter rs []
  backfillAliases pass.2 pass.1

/-- Translation of `RmanDiscoveryPlugin::GetSearchURIs`. -/
def GetSearchURIs (p : RmanDiscoveryPlugin) : List String :=
  p.searchPaths

/-!
Specification-side reformulations of the remove/extract pass, used to state
the claims.  `keptResults` and `mergedAliasMap` compute the two components
of `removePass` independently of one another; `removePass_spec` below
proves they agree with the translated code.
-/

/-- Whether a result is an alias-definition result: its `uri` ends with the
reserved `".sdraliases"` extension. -/
def isAliasesResult (dr : NdrNodeDiscoveryResult) : Bool :=
  tfStringEndsWith dr.uri aliasExtension

/-- The keep decision of the filter predicate, as a pure function of one
result: alias files are dropped; otherwise a configured filter decides;
with no filter everything else is kept. -/
def keepDecision (filter : Option (NdrNodeDiscoveryResult → Bool))
    (dr : NdrNodeDiscoveryResult) : Bool :=
  if isAliasesResult dr then false
  else
    match filter with
    | some f => f dr
    | none => true

/-- The results surviving the remove/extract pass, computed independently
of the alias map. -/
def keptResults (filter : Option (NdrNodeDiscoveryResult → Bool))
    (rs : List NdrNodeDiscoveryResult) : List NdrNodeDiscoveryResult :=
  rs.filter (keepDecision filter)

/-- The alias map obtained by parsing every alias-definition result of the
sequence, in order, into an initial map — independent of the filter and of
which results are kept. -/
def mergedAliasMap (parse : AliasParser) :
    List NdrNodeDiscoveryResult → AliasMap → AliasMap
  | [], m => m
  | dr :: rest, m =>
    mergedAliasMap parse rest (if isAliasesResult dr then parse dr m else m)

theorem removePass_spec (parse : AliasParser)
    (filter : Option (NdrNodeDiscoveryResult → Bool)) :
    ∀ (rs : List NdrNodeDiscoveryResult) (m : AliasMap),
      removePass parse filter rs m =
        (keptResults filter rs, mergedAliasMap parse rs m) := by
  intro rs
  induction rs with
  | nil => intro m; rfl
  | cons dr rest ih =>
    intro m
    simp only [removePass, filterPredicate, getAliasesFromAliasesDiscoveryResult,
      keptResults, List.filter_cons, keepDecision, mergedAliasMap, isAliasesResult]
    by_cases h : tfStringEndsWith dr.uri aliasExtension = true
    · simp [h, ih, keptResults]
    · simp only [Bool.not_eq_true] at h
      cases filter with
      | none => simp [h, ih, keptResults]
      | some f =>
        simp only [h, Bool.false_eq_true, if_false]
        cases hf : f dr with
        | true => simp [ih, keptResults]
        | false => simp [ih, keptResults]

theorem discoverNodes_decomp (parse : AliasParser) (p : RmanDiscoveryPlugin)
    (rs : List NdrNodeDiscoveryResult) :
    DiscoverNodes parse p rs =
      backfillAliases (mergedAliasMap parse rs []) (keptResults p.filter rs) := by
  unfold DiscoverNodes
  rw [removePass_spec]

/-!
Stateful view of a `DiscoverNodes` call, to express frame properties: the
C++ method reads the members `_searchPaths`, `_allowedExtensions`,
`_followSymlinks` and `_filter` but assigns none of them, so the member
state after the call is the member state before it.
-/

/-- Modelled from the spec: the filesystem walker
(`NdrFsHelpersDiscoverNodes`, defined outside this file), a fixed function
of the search paths, allowed extensions and symlink flag standing for a
fixed filesystem state. -/
abbrev Walker := List String → List String → Bool → List NdrNodeDiscoveryResult

/-- A `DiscoverNodes` call as a transition on the plugin's member state:
it produces the result collection and the plugin state after the call
(unchanged, since the method body assigns no member). -/
def DiscoverNodesSt (parse : AliasParser) (walk : Walker)
    (p : RmanDiscoveryPlugin) :
    List NdrNodeDiscoveryResult × RmanDiscoveryPlugin :=
  let rs := walk p.searchPaths p.allowedExtensions p.followSymlinks
  (DiscoverNodes parse p rs, p)

/-- The plugin state after `n` successive `DiscoverNodes` calls. -/
def discoverRuns (parse : AliasParser) (walk : Walker) :
    Nat → RmanDiscoveryPlugin → RmanDiscoveryPlugin
  | 0, p => p
  | n + 1, p => discoverRuns parse walk n (DiscoverNodesSt parse walk p).2

/-!
The process-wide defaults: `RmanDiscoveryPlugin_GetDefaultSearchPaths`
holds a function-local static initialized from `computeDefaultSearchPaths`
on first access, with a setter that overwrites it;
`RmanDiscoveryPlugin_GetDefaultFollowSymlinks` holds a static bool
initialized to `true`, with a setter.  The constructors read both.
-/

/-- Modelled from the spec: the environment-style configuration read by
`computeDefaultSearchPaths` — the `TfGetenv` results (empty string when a
variable is unset) and the directory of the `hdPrmanLoader` plugin when
the plugin registry knows it (both collaborators live outside this file). -/
structure Env where
  rmanShaderPath : String
  rmanTree : String
  rmanRixPluginPath : String
  hdPrmanLoaderDir : Option String

/-- Modelled from the spec: `ARCH_PATH_LIST_SEP`, the platform path-list
separator. -/
def archPathListSep : String := ":"

/-- Modelled from the spec: `TfStringSplit`, splitting on the separator
and dropping empty tokens (external string helper). -/
def tfStringSplit (s sep : String) : List String :=
  (s.splitOn sep).filter (fun t => t ≠ "")

/-- Modelled from the spec: `TfStringCatPaths`, joining two path
components (external string helper). -/
def tfStringCatPaths (dirPath relPath : String) : String :=
  dirPath ++ "/" ++ relPath

/-- Translation of `computeDefaultSearchPaths`: `RMAN_SHADERPATH` (split on
the path-list separator) or, failing that, `$RMANTREE/lib/shaders` and the
`hdPrmanLoader` resources directory; then `RMAN_RIXPLUGINPATH` with `Args`
appended to each entry or, failing that, `$RMANTREE/lib/plugins/Args`. -/
def computeDefaultSearchPaths (env : Env) : List String :=
  let searchPaths : List String := []
  let searchPaths :=
    if env.rmanShaderPath ≠ "" then
      searchPaths ++ tfStringSplit env.rmanShaderPath archPathListSep
    else
      let sp :=
        if env.rmanTree ≠ "" then
          searchPaths ++ [tfStringCatPaths env.rmanTree "lib/shaders"]
        else searchPaths
      match env.hdPrmanLoaderDir with
      | some path =>
        if path ≠ "" then sp ++ [tfStringCatPaths path "resources/shaders"]
        else sp
      | none => sp
  if env.rmanRixPluginPath ≠ "" then
    searchPaths ++
      (tfStringSplit env.rmanRixPluginPath archPathListSep).map
        (fun path => tfStringCatPaths path "Args")
  else if env.rmanTree ≠ "" then
    searchPaths ++ [tfStringCatPaths env.rmanTree "lib/plugins/Args"]
  else searchPaths

/-- The process-wide mutable defaults: the lazily-initialized static of
`RmanDiscoveryPlugin_GetDefaultSearchPaths` (`none` before first access),
an instrumentation counter of how many times `computeDefaultSearchPaths`
has run, and the static of `RmanDiscoveryPlugin_GetDefaultFollowSymlinks`. -/
structure GlobalDefaults where
  cachedSearchPaths : Option (List String)
  computeCount : Nat
  defaultFollowSymlinks : Bool
deriving DecidableEq

/-- The process state at startup: search paths not yet computed, the
follow-symlinks static constant-initialized to `true`. -/
def initialDefaults : GlobalDefaults :=
  { cachedSearchPaths := none, computeCount := 0, defaultFollowSymlinks := true }

/-- Translation of `RmanDiscoveryPlugin_GetDefaultSearchPaths`: on first
access the static is initialized from `computeDefaultSearchPaths`
(counted); afterwards the cached value is returned. -/
def getDefaultSearchPaths (env : Env) (g : GlobalDefaults) :
    List String × GlobalDefaults :=
  match g.cachedSearchPaths with
  | some v => (v, g)
  | none =>
    let v := computeDefaultSearchPaths env
    (v, { g with cachedSearchPaths := some v, computeCount := g.computeCount + 1 })

/-- Translation of `RmanDiscoveryPlugin_SetDefaultSearchPaths`: the getter
is evaluated (forcing initialization) and its static is assigned. -/
def setDefaultSearchPaths (env : Env) (paths : List String)
    (g : GlobalDefaults) : GlobalDefaults :=
  let step := getDefaultSearchPaths env g
  { step.2 with cachedSearchPaths := some paths }

/-- Translation of `RmanDiscoveryPlugin_SetDefaultFollowSymlinks`. -/
def setDefaultFollowSymlinks (b : Bool) (g : GlobalDefaults) :
    GlobalDefaults :=
  { g with defaultFollowSymlinks := b }

/-- Translation of the default constructor `RmanDiscoveryPlugin()`: the
search paths and follow-symlinks flag come from the process-wide defaults,
the allowed extensions from `_allowedExtensionTokens`, and no filter is
set. -/
def mkRmanDiscoveryPlugin (env : Env) (g : GlobalDefaults) :
    RmanDiscoveryPlugin × GlobalDefaults :=
  let step := getDefaultSearchPaths env g
  ({ searchPaths := step.1,
     allowedExtensions := allowedExtensionStrings,
     followSymlinks := step.2.defaultFollowSymlinks,
     filter := none }, step.2)

/-- Translation of the filter-taking constructor
`RmanDiscoveryPlugin(Filter)`: it delegates to the default constructor and
then stores the filter. -/
def mkRmanDiscoveryPluginWithFilter (env : Env)
    (f : NdrNodeDiscoveryResult → Bool) (g : GlobalDefaults) :
    RmanDiscoveryPlugin × GlobalDefaults :=
  let step := mkRmanDiscoveryPlugin env g
  ({ step.1 with filter := some f }, step.2)

/-- Operations touching the process-wide defaults. -/
inductive DefaultsOp where
  | getPaths : DefaultsOp
  | setPaths (paths : List String) : DefaultsOp
  | setSymlinks (b : Bool) : DefaultsOp
  | construct : DefaultsOp
  | constructWithFilter (f : NdrNodeDiscoveryResult → Bool) : DefaultsOp

/-- Whether an operation is a `SetDefaultSearchPaths` call. -/
def DefaultsOp.isSetPathsOp : DefaultsOp → Bool
  | .setPaths _ => true
  | _ => false

/-- Whether an operation is a `SetDefaultFollowSymlinks` call. -/
def DefaultsOp.isSetSymlinksOp : DefaultsOp → Bool
  | .setSymlinks _ => true
  | _ => false

/-- Effect of one operation on the process-wide defaults. -/
def applyOp (env : Env) (g : GlobalDefaults) : DefaultsOp → GlobalDefaults
  | .getPaths => (getDefaultSearchPaths env g).2
  | .setPaths paths => setDefaultSearchPaths env paths g
  | .setSymlinks b => setDefaultFollowSymlinks b g
  | .construct => (mkRmanDiscoveryPlugin env g).2
  | .constructWithFilter f => (mkRmanDiscoveryPluginWithFilter env f g).2

/-- Effect of a sequence of operations on the process-wide defaults. -/
def applyOps (env : Env) : GlobalDefaults → List DefaultsOp → GlobalDefaults
  | g, [] => g
  | g, op :: rest => applyOps env (applyOp env g op) rest

/-!
Instrumented variant of the remove/extract pass that, besides the kept
results and the alias map, records the list of results the injected filter
was actually invoked on — mirroring the short-circuit control flow of the
`filterPredicate` lambda, where `this->_filter(dr)` is only reached when
the alias-file test already returned false.
-/

/-- The remove/extract pass with an invocation trace: the third component
lists, in order, every result on which the configured filter was called. -/
def removePassTrace (parse : AliasParser)
    (filter : Option (NdrNodeDiscoveryResult → Bool)) :
    List NdrNodeDiscoveryResult → AliasMap →
      (List NdrNodeDiscoveryResult × AliasMap) × List NdrNodeDiscoveryResult
  | [], m => (([], m), [])
  | dr :: rest, m =>
    let step := getAliasesFromAliasesDiscoveryResult parse dr m
    if step.1 then
      removePassTrace parse filter rest step.2
    else
      match filter with
      | some f =>
        let keep := f dr
        let tail := removePassTrace parse filter rest step.2
        ((if keep then dr :: tail.1.1 else tail.1.1, tail.1.2), dr :: tail.2)
      | none =>
        let tail := removePassTrace parse filter rest step.2
        ((dr :: tail.1.1, tail.1.2), tail.2)

theorem removePassTrace_fst (parse : AliasParser)
    (filter : Option (NdrNodeDiscoveryResult → Bool)) :
    ∀ (rs : List NdrNodeDiscoveryResult) (m : AliasMap),
      (removePassTrace parse filter rs m).1 = removePass parse filter rs m := by
  intro rs
  induction rs with
  | nil => intro m; rfl
  | cons dr rest ih =>
    intro m
    simp only [removePassTrace, removePass, filterPredicate,
      getAliasesFromAliasesDiscoveryResult]
    by_cases h : tfStringEndsWith dr.uri aliasExtension = true
    · simp [h, ih]
    · simp only [Bool.not_eq_true] at h
      cases filter with
      | none => simp [h, ih]
      | some f =>
        simp only [h, Bool.false_eq_true, if_false]
        cases hf : f dr with
        | true => simp [ih]
        | false => simp [ih]

theorem removePassTrace_trace (parse : AliasParser)
    (f : NdrNodeDiscoveryResult → Bool) :
    ∀ (rs : List NdrNodeDiscoveryResult) (m : AliasMap),
      (removePassTrace parse (some f) rs m).2 =
        rs.filter (fun r => !(isAliasesResult r)) := by
  intro rs
  induction rs with
  | nil => intro m; rfl
  | cons dr rest ih =>
    intro m
    simp only [removePassTrace, getAliasesFromAliasesDiscoveryResult]
    by_cases h : tfStringEndsWith dr.uri aliasExtension = true
    · simp [h, ih, List.filter_cons, isAliasesResult]
    · simp only [Bool.not_eq_true] at h
      simp [h, ih, List.filter_cons, isAliasesResult]

theorem mergedAliasMap_foldl (parse : AliasParser) :
    ∀ (rs : List NdrNodeDiscoveryResult) (m0 : AliasMap),
      mergedAliasMap parse rs m0 =
        (rs.filter isAliasesResult).foldl (fun m dr => parse dr m) m0 := by
  intro rs
  induction rs with
  | nil => intro m0; rfl
  | cons dr rest ih =>
    intro m0
    simp only [mergedAliasMap, List.filter_cons]
    by_cases h : isAliasesResult dr = true
    · simp [h, ih]
    · simp only [Bool.not_eq_true] at h
      simp [h, ih]

theorem mergedAliasMap_filter_free (parse : AliasParser)
    (rs : List NdrNodeDiscoveryResult) :
    rs.filter isAliasesResult = [] → mergedAliasMap parse rs [] = [] := by
  intro h
  rw [mergedAliasMap_foldl, h]
  rfl

theorem backfillOne_identifier (m : AliasMap) (dr : NdrNodeDiscoveryResult) :
    (backfillOne m dr).identifier = dr.identifier := by
  unfold backfillOne
  cases aliasMapFind m dr.identifier <;> rfl

theorem backfillOne_uri (m : AliasMap) (dr : NdrNodeDiscoveryResult) :
    (backfillOne m dr).uri = dr.uri := by
  unfold backfillOne
  cases aliasMapFind m dr.identifier <;> rfl

theorem backfillOne_found (m : AliasMap) (dr : NdrNodeDiscoveryResult)
    (al : List String) (h : aliasMapFind m dr.identifier = some al) :
    (backfillOne m dr).aliases = al := by
  unfold backfillOne
  rw [h]

theorem backfillOne_not_found (m : AliasMap) (dr : NdrNodeDiscoveryResult)
    (h : aliasMapFind m dr.identifier = none) :
    backfillOne m dr = dr := by
  unfold backfillOne
  rw [h]

theorem backfillAliases_map (m : AliasMap) (rs : List NdrNodeDiscoveryResult) :
    backfillAliases m rs = rs.map (backfillOne m) := by
  cases m with
  | nil =>
    have h : backfillOne ([] : AliasMap) = id := funext (fun dr => rfl)
    simp [backfillAliases, h]
  | cons e rest => rfl

/-- Invariant tying the instrumentation counter to the cache: the
environment computation has run at most once, and not at all while the
cache is still unset. -/
def defaultsInv (g : GlobalDefaults) : Prop :=
  g.computeCount ≤ 1 ∧ (g.cachedSearchPaths = none → g.computeCount = 0)

theorem getDefaultSearchPaths_inv (env : Env) (g : GlobalDefaults)
    (h : defaultsInv g) : defaultsInv (getDefaultSearchPaths env g).2 := by
  unfold getDefaultSearchPaths
  cases hc : g.cachedSearchPaths with
  | some v => exact h
  | none =>
    refine ⟨?_, ?_⟩
    · have := h.2 hc
      simp [this]
    · intro hcontra
      simp at hcontra

theorem applyOp_inv (env : Env) (g : GlobalDefaults) (op : DefaultsOp)
    (h : defaultsInv g) : defaultsInv (applyOp env g op) := by
  cases op with
  | getPaths => exact getDefaultSearchPaths_inv env g h
  | setPaths paths =>
    have h2 := getDefaultSearchPaths_inv env g h
    refine ⟨h2.1, fun hcontra => ?_⟩
    exact Option.noConfusion hcontra
  | setSymlinks b => exact ⟨h.1, h.2⟩
  | construct => exact getDefaultSearchPaths_inv env g h
  | constructWithFilter f => exact getDefaultSearchPaths_inv env g h

theorem applyOps_inv (env : Env) :
    ∀ (ops : List DefaultsOp) (g : GlobalDefaults),
      defaultsInv g → defaultsInv (applyOps env g ops) := by
  intro ops
  induction ops with
  | nil => intro g h; exact h
  | cons op rest ih =>
    intro g h
    exact ih (applyOp env g op) (applyOp_inv env g op h)

theorem applyOp_cached_preserved (env : Env) (g : GlobalDefaults)
    (op : DefaultsOp) (v : List String)
    (hc : g.cachedSearchPaths = some v) (hop : op.isSetPathsOp = false) :
    (applyOp env g op).cachedSearchPaths = some v := by
  cases op with
  | getPaths => simp [applyOp, getDefaultSearchPaths, hc]
  | setPaths paths => simp [DefaultsOp.isSetPathsOp] at hop
  | setSymlinks b => simpa [applyOp, setDefaultFollowSymlinks] using hc
  | construct => simp [applyOp, mkRmanDiscoveryPlugin, getDefaultSearchPaths, hc]
  | constructWithFilter f =>
    simp [applyOp, mkRmanDiscoveryPluginWithFilter, mkRmanDiscoveryPlugin,
      getDefaultSearchPaths, hc]

theorem applyOps_cached_preserved (env : Env) :
    ∀ (ops : List DefaultsOp) (g : GlobalDefaults) (v : List String),
      g.cachedSearchPaths = some v →
      ops.all (fun op => !op.isSetPathsOp) = true →
      (applyOps env g ops).cachedSearchPaths = some v := by
  intro ops
  induction ops with
  | nil => intro g v hc _; exact hc
  | cons op rest ih =>
    intro g v hc hall
    simp only [List.all_cons, Bool.and_eq_true, Bool.not_eq_true'] at hall
    exact ih (applyOp env g op) v
      (applyOp_cached_preserved env g op v hc hall.1)
      (by simpa using hall.2)

theorem applyOp_symlinks_preserved (env : Env) (g : GlobalDefaults)
    (op : DefaultsOp) (hop : op.isSetSymlinksOp = false) :
    (applyOp env g op).defaultFollowSymlinks = g.defaultFollowSymlinks := by
  cases op with
  | getPaths =>
    simp only [applyOp]
    unfold getDefaultSearchPaths
    cases g.cachedSearchPaths <;> rfl
  | setPaths paths =>
    simp only [applyOp]
    unfold setDefaultSearchPaths getDefaultSearchPaths
    cases g.cachedSearchPaths <;> rfl
  | setSymlinks b => simp [DefaultsOp.isSetSymlinksOp] at hop
  | construct =>
    simp only [applyOp]
    unfold mkRmanDiscoveryPlugin getDefaultSearchPaths
    cases g.cachedSearchPaths <;> rfl
  | constructWithFilter f =>
    simp only [applyOp]
    unfold mkRmanDiscoveryPluginWithFilter mkRmanDiscoveryPlugin
      getDefaultSearchPaths
    cases g.cachedSearchPaths <;> rfl

theorem applyOps_symlinks_preserved (env : Env) :
    ∀ (ops : List DefaultsOp) (g : GlobalDefaults),
      ops.all (fun op => !op.isSetSymlinksOp) = true →
      (applyOps env g ops).defaultFollowSymlinks = g.defaultFollowSymlinks := by
  intro ops
  induction ops with
  | nil => intro g _; rfl
  | cons op rest ih =>
    intro g hall
    simp only [List.all_cons, Bool.and_eq_true, Bool.not_eq_true'] at hall
    rw [applyOps, ih (applyOp env g op) (by simpa using hall.2),
      applyOp_symlinks_preserved env g op hall.1]

theorem setDefaultSearchPaths_cached (env : Env) (paths : List String)
    (g : GlobalDefaults) :
    (setDefaultSearchPaths env paths g).cachedSearchPaths = some paths := rfl

theorem mk_searchPaths_of_cached (env : Env) (g : GlobalDefaults)
    (v : List String) (hc : g.cachedSearchPaths = some v) :
    (mkRmanDiscoveryPlugin env g).1.searchPaths = v := by
  simp [mkRmanDiscoveryPlugin, getDefaultSearchPaths, hc]

theorem keptResults_no_alias
    (filter : Option (NdrNodeDiscoveryResult → Bool))
    (rs : List NdrNodeDiscoveryResult) (r : NdrNodeDiscoveryResult)
    (h : r ∈ keptResults filter rs) : isAliasesResult r = false := by
  unfold keptResults at h
  have hk := List.of_mem_filter h
  unfold keepDecision at hk
  by_cases ha : isAliasesResult r = true
  · rw [ha] at hk; simp at hk
  · simpa using ha

/-!
Concrete sample inputs (a node result, an alias-definition result listed
after it, and a parser contributing aliases for the node), used to
instantiate theorems with hypotheses.
-/

/-- A sample non-alias discovery result. -/
def sampleNode : NdrNodeDiscoveryResult :=
  { identifier := "plastic", version := "1", family := "material",
    sourceType := "args", uri := "/shaders/plastic.args", aliases := [] }

/-- A sample alias-definition result, listed after the node it aliases. -/
def sampleAliasesFile : NdrNodeDiscoveryResult :=
  { identifier := "aliasData", version := "", family := "",
    sourceType := "sdraliases", uri := "/shaders/aliasData.sdraliases",
    aliases := [] }

/-- A sample parser contributing aliases for `"plastic"`. -/
def sampleParse : AliasParser :=
  fun _ m => ("plastic", ["old_plastic", "legacy_plastic"]) :: m

/-- A sample raw result sequence with the alias file after the node. -/
def sampleResults : List NdrNodeDiscoveryResult :=
  [sampleNode, sampleAliasesFile]

/-- A sample plugin with default-constructor state and no filter. -/
def samplePlugin : RmanDiscoveryPlugin :=
  { searchPaths := ["/shaders"], allowedExtensions := allowedExtensionStrings,
    followSymlinks := true, filter := none }

/-- The sample node with its aliases back-filled. -/
def sampleBackfilled : NdrNodeDiscoveryResult :=
  { sampleNode with aliases := ["old_plastic", "legacy_plastic"] }

example : DiscoverNodes sampleParse samplePlugin sampleResults =
    [sampleBackfilled] := by decide

/-- C1: for every input result sequence, the aliases back-filled onto the
returned results reflect the fully merged alias map built from every
alias-definition file of the input: `DiscoverNodes` equals the back-fill
pass applied, after the removal/extraction pass over all results has
completed, with the alias map merged from the entire sequence — so an
alias file appearing later in iteration order than a node's own file still
contributes that node's aliases. -/
theorem C1_backfill_uses_fully_merged_map (parse : AliasParser)
    (p : RmanDiscoveryPlugin) (rs : List NdrNodeDiscoveryResult) :
    DiscoverNodes parse p rs =
      backfillAliases (mergedAliasMap parse rs []) (keptResults p.filter rs) :=
  discoverNodes_decomp parse p rs

/-- C2: every result whose uri carries the reserved `".sdraliases"`
extension is passed to the injected alias parser — the shared alias map is
exactly the fold of the parser over those results, in order, and is the
map the remove pass produces — and is removed: no result in the returned
collection has a uri ending in the aliases extension. -/
theorem C2_alias_files_parsed_and_removed (parse : AliasParser)
    (p : RmanDiscoveryPlugin) (rs : List NdrNodeDiscoveryResult) :
    (DiscoverNodes parse p rs).all
        (fun r => !(tfStringEndsWith r.uri aliasExtension)) = true
    ∧ (∀ m0 : AliasMap, mergedAliasMap parse rs m0 =
        (rs.filter isAliasesResult).foldl (fun m dr => parse dr m) m0)
    ∧ (removePass parse p.filter rs []).2 = mergedAliasMap parse rs [] := by
  refine ⟨?_, mergedAliasMap_foldl parse rs, ?_⟩
  · rw [List.all_eq_true]
    intro r hr
    rw [discoverNodes_decomp, backfillAliases_map] at hr
    rcases List.mem_map.mp hr with ⟨dr, hdr, hb⟩
    have hk := keptResults_no_alias p.filter rs dr hdr
    unfold isAliasesResult at hk
    rw [← hb, backfillOne_uri, hk]
    rfl
  · rw [removePass_spec]

/-- C3: in the returned collection, every result whose identifier is a key
of the merged alias map has its aliases field equal to that map entry's
alias sequence; the returned collection is the kept results with each
result rewritten only when its identifier is found (a result whose
identifier is not a key is returned unchanged); and when no alias files
were found every result is returned with its aliases untouched. -/
theorem C3_alias_backfill_exact (parse : AliasParser)
    (p : RmanDiscoveryPlugin) (rs : List NdrNodeDiscoveryResult) :
    DiscoverNodes parse p rs =
      (keptResults p.filter rs).map (backfillOne (mergedAliasMap parse rs []))
    ∧ (∀ r, r ∈ DiscoverNodes parse p rs → ∀ al,
        aliasMapFind (mergedAliasMap parse rs []) r.identifier = some al →
          r.aliases = al)
    ∧ (∀ dr : NdrNodeDiscoveryResult,
        aliasMapFind (mergedAliasMap parse rs []) dr.identifier = none →
          backfillOne (mergedAliasMap parse rs []) dr = dr)
    ∧ (rs.filter isAliasesResult = [] →
        DiscoverNodes parse p rs = keptResults p.filter rs) := by
  refine ⟨?_, ?_, ?_, ?_⟩
  · rw [discoverNodes_decomp, backfillAliases_map]
  · intro r hr al hfind
    rw [discoverNodes_decomp, backfillAliases_map] at hr
    rcases List.mem_map.mp hr with ⟨dr, _, hb⟩
    rw [← hb] at hfind
    rw [backfillOne_identifier] at hfind
    rw [← hb]
    exact backfillOne_found _ dr al hfind
  · intro dr hfind
    exact backfillOne_not_found _ dr hfind
  · intro hfree
    rw [discoverNodes_decomp, mergedAliasMap_filter_free parse rs hfree]
    rfl

/-- C3 witness: on the sample input (a node followed by an alias file for
it), the back-filled node is in the returned collection, its identifier is
a key of the merged map, and its aliases equal that map entry. -/
theorem C3_alias_backfill_exact_witness :
    sampleBackfilled ∈ DiscoverNodes sampleParse samplePlugin sampleResults
    ∧ aliasMapFind (mergedAliasMap sampleParse sampleResults [])
        sampleBackfilled.identifier = some ["old_plastic", "legacy_plastic"]
    ∧ sampleBackfilled.aliases = ["old_plastic", "legacy_plastic"] :=
  ⟨by decide, by decide,
    (C3_alias_backfill_exact sampleParse samplePlugin sampleResults).2.1
      sampleBackfilled (by decide) ["old_plastic", "legacy_plastic"]
      (by decide)⟩

/-- C4: when a filter predicate is configured, a non-alias-file result
survives the remove pass exactly when the filter returns true for it — the
kept results are the input filtered by "not an alias file, and the filter
accepts" with the alias test decided first — and the alias back-fill is
applied to the collection after that filtering. -/
theorem C4_filter_keeps_iff_true (parse : AliasParser) (sp ae : List String)
    (fs : Bool) (f : NdrNodeDiscoveryResult → Bool)
    (rs : List NdrNodeDiscoveryResult) :
    keptResults (some f) rs =
      rs.filter (fun r => !(isAliasesResult r) && f r)
    ∧ DiscoverNodes parse ⟨sp, ae, fs, some f⟩ rs =
        backfillAliases (mergedAliasMap parse rs [])
          (rs.filter (fun r => !(isAliasesResult r) && f r)) := by
  have hkeep : keptResults (some f) rs =
      rs.filter (fun r => !(isAliasesResult r) && f r) := by
    unfold keptResults
    apply List.filter_congr
    intro r _
    unfold keepDecision
    cases h : isAliasesResult r <;> simp [h]
  refine ⟨hkeep, ?_⟩
  rw [discoverNodes_decomp]
  rw [show (RmanDiscoveryPlugin.mk sp ae fs (some f)).filter = some f from rfl,
    hkeep]

/-- C5: for a fixed input, discovery with a filter predicate returning true
for every result produces exactly the same ordered result collection as
discovery with no filter configured. -/
theorem C5_always_true_filter_is_no_filter (parse : AliasParser)
    (sp ae : List String) (fs : Bool) (rs : List NdrNodeDiscoveryResult) :
    DiscoverNodes parse ⟨sp, ae, fs, some (fun _ => true)⟩ rs =
      DiscoverNodes parse ⟨sp, ae, fs, none⟩ rs := by
  rw [discoverNodes_decomp, discoverNodes_decomp]
  have hkeep : keepDecision (some (fun _ => true)) = keepDecision none := by
    funext r
    unfold keepDecision
    cases h : isAliasesResult r <;> simp [h]
  unfold keptResults
  rw [show (RmanDiscoveryPlugin.mk sp ae fs (some (fun _ => true))).filter =
      some (fun _ => true) from rfl,
    show (RmanDiscoveryPlugin.mk sp ae fs none).filter = none from rfl, hkeep]

theorem discoverRuns_fixed (parse : AliasParser) (walk : Walker) :
    ∀ (n : Nat) (p : RmanDiscoveryPlugin),
      discoverRuns parse walk n p = p := by
  intro n
  induction n with
  | zero => intro p; rfl
  | succ k ih =>
    intro p
    rw [discoverRuns]
    exact ih p

/-- C6: for a fixed filesystem state (a fixed walker and alias parser) and
a fixed plugin configuration, two invocations of `DiscoverNodes` produce
identical ordered result collections and identical post-call states: the
embedded discovery is a pure function of its inputs. -/
theorem C6_deterministic (parse : AliasParser) (walk : Walker)
    (p : RmanDiscoveryPlugin) :
    DiscoverNodesSt parse walk p = DiscoverNodesSt parse walk p := rfl

/-- C7: `DiscoverNodes` leaves the plugin's configuration unchanged — the
post-call plugin state equals the pre-call state (search paths, allowed
extensions, follow-symlinks flag and filter included), and after any
number of discovery runs `GetSearchURIs` returns the same search paths. -/
theorem C7_config_frame (parse : AliasParser) (walk : Walker)
    (p : RmanDiscoveryPlugin) :
    (DiscoverNodesSt parse walk p).2 = p
    ∧ (∀ n : Nat, discoverRuns parse walk n p = p)
    ∧ (∀ n : Nat,
        GetSearchURIs (discoverRuns parse walk n p) = GetSearchURIs p) := by
  refine ⟨rfl, fun n => discoverRuns_fixed parse walk n p, ?_⟩
  intro n
  rw [discoverRuns_fixed parse walk n p]

theorem mk_followSymlinks (env : Env) (g : GlobalDefaults) :
    (mkRmanDiscoveryPlugin env g).1.followSymlinks =
      g.defaultFollowSymlinks := by
  unfold mkRmanDiscoveryPlugin getDefaultSearchPaths
  cases g.cachedSearchPaths <;> rfl

/-- C8: the process-wide default search paths are computed from the
environment at most once across any sequence of accesses; after
`RmanDiscoveryPlugin_SetDefaultSearchPaths(paths)` every plugin
constructed later (with no further set of the paths) has search paths —
and `GetSearchURIs` — equal to `paths`; and a plugin constructed after
`RmanDiscoveryPlugin_SetDefaultFollowSymlinks(b)` (with no further set of
the flag) has follow-symlinks flag `b`. -/
theorem C8_process_defaults (env : Env) (g : GlobalDefaults)
    (paths : List String) (b : Bool) (ops1 ops2 ops3 : List DefaultsOp)
    (h1 : ops1.all (fun op => !op.isSetPathsOp) = true)
    (h2 : ops2.all (fun op => !op.isSetSymlinksOp) = true) :
    (applyOps env initialDefaults ops3).computeCount ≤ 1
    ∧ (mkRmanDiscoveryPlugin env
        (applyOps env (setDefaultSearchPaths env paths g) ops1)).1.searchPaths
        = paths
    ∧ GetSearchURIs (mkRmanDiscoveryPlugin env
        (applyOps env (setDefaultSearchPaths env paths g) ops1)).1 = paths
    ∧ (mkRmanDiscoveryPlugin env
        (applyOps env (setDefaultFollowSymlinks b g) ops2)).1.followSymlinks
        = b := by
  have hinv : defaultsInv (applyOps env initialDefaults ops3) :=
    applyOps_inv env ops3 initialDefaults
      ⟨Nat.zero_le 1, fun _ => rfl⟩
  have hcached :
      (applyOps env (setDefaultSearchPaths env paths g) ops1).cachedSearchPaths
        = some paths :=
    applyOps_cached_preserved env ops1 (setDefaultSearchPaths env paths g)
      paths (setDefaultSearchPaths_cached env paths g) h1
  have hpaths := mk_searchPaths_of_cached env
    (applyOps env (setDefaultSearchPaths env paths g) ops1) paths hcached
  refine ⟨hinv.1, hpaths, hpaths, ?_⟩
  rw [mk_followSymlinks,
    applyOps_symlinks_preserved env ops2 (setDefaultFollowSymlinks b g) h2]
  rfl

/-- C8 witness: with a concrete empty environment, after setting the
default search paths to `["/override"]` and then accessing and
constructing, a newly constructed plugin reports `["/override"]`; the
compute counter stays at most one; and after disabling follow-symlinks a
new plugin has the flag off. -/
theorem C8_process_defaults_witness :
    ([DefaultsOp.getPaths, DefaultsOp.construct].all
        (fun op => !op.isSetPathsOp) = true)
    ∧ ([DefaultsOp.setPaths ["/q"]].all
        (fun op => !op.isSetSymlinksOp) = true)
    ∧ ((applyOps (Env.mk "" "" "" none) initialDefaults
        [DefaultsOp.construct, DefaultsOp.getPaths,
          DefaultsOp.construct]).computeCount ≤ 1
      ∧ (mkRmanDiscoveryPlugin (Env.mk "" "" "" none)
          (applyOps (Env.mk "" "" "" none)
            (setDefaultSearchPaths (Env.mk "" "" "" none) ["/override"]
              initialDefaults)
            [DefaultsOp.getPaths, DefaultsOp.construct])).1.searchPaths
          = ["/override"]
      ∧ GetSearchURIs (mkRmanDiscoveryPlugin (Env.mk "" "" "" none)
          (applyOps (Env.mk "" "" "" none)
            (setDefaultSearchPaths (Env.mk "" "" "" none) ["/override"]
              initialDefaults)
            [DefaultsOp.getPaths, DefaultsOp.construct])).1 = ["/override"]
      ∧ (mkRmanDiscoveryPlugin (Env.mk "" "" "" none)
          (applyOps (Env.mk "" "" "" none)
            (setDefaultFollowSymlinks false initialDefaults)
            [DefaultsOp.setPaths ["/q"]])).1.followSymlinks = false) :=
  ⟨by decide, by decide,
    C8_process_defaults (Env.mk "" "" "" none) initialDefaults ["/override"]
      false [DefaultsOp.getPaths, DefaultsOp.construct]
      [DefaultsOp.setPaths ["/q"]]
      [DefaultsOp.construct, DefaultsOp.getPaths, DefaultsOp.construct]
      (by decide) (by decide)⟩

/-- C9: the configured filter predicate is never invoked on an
alias-definition result: the remove pass's invocation trace is exactly the
non-alias results (so alias files never reach the filter and its side
effects cannot occur for them), the traced pass agrees with the translated
code, and the discovery output is unchanged by replacing the filter with
any predicate agreeing with it on non-alias results. -/
theorem C9_filter_never_sees_alias_files (parse : AliasParser)
    (sp ae : List String) (fs : Bool) (f g : NdrNodeDiscoveryResult → Bool)
    (rs : List NdrNodeDiscoveryResult) (m : AliasMap)
    (h : ∀ r, isAliasesResult r = false → f r = g r) :
    (removePassTrace parse (some f) rs m).2 =
      rs.filter (fun r => !(isAliasesResult r))
    ∧ (removePassTrace parse (some f) rs m).1 = removePass parse (some f) rs m
    ∧ DiscoverNodes parse ⟨sp, ae, fs, some f⟩ rs =
        DiscoverNodes parse ⟨sp, ae, fs, some g⟩ rs := by
  refine ⟨removePassTrace_trace parse f rs m,
    removePassTrace_fst parse (some f) rs m, ?_⟩
  rw [discoverNodes_decomp, discoverNodes_decomp]
  have hkeep : keepDecision (some f) = keepDecision (some g) := by
    funext r
    unfold keepDecision
    cases ha : isAliasesResult r with
    | true => simp
    | false => simp [h r ha]
  unfold keptResults
  rw [show (RmanDiscoveryPlugin.mk sp ae fs (some f)).filter = some f from rfl,
    show (RmanDiscoveryPlugin.mk sp ae fs (some g)).filter = some g from rfl,
    hkeep]

/-- C9 witness: on the sample input the filter invocation trace is exactly
the non-alias results — the alias file never reaches the filter. -/
theorem C9_filter_never_sees_alias_files_witness :
    (removePassTrace sampleParse (some (fun _ => true)) sampleResults []).2 =
      sampleResults.filter (fun r => !(isAliasesResult r)) :=
  (C9_filter_never_sees_alias_files sampleParse ["/shaders"]
    allowedExtensionStrings true (fun _ => true) (fun _ => true)
    sampleResults [] (fun _ _ => rfl)).1

/-- C10: every constructed plugin instance — whether by the default or the
filter-taking constructor — has its allowed-extension set equal to exactly
`["args", "oso", "sdraliases"]`, and discovery runs never change it. -/
theorem C10_allowed_extensions_fixed (env : Env) (g : GlobalDefaults)
    (f : NdrNodeDiscoveryResult → Bool) (parse : AliasParser) (walk : Walker)
    (p : RmanDiscoveryPlugin) (n : Nat) :
    (mkRmanDiscoveryPlugin env g).1.allowedExtensions =
      ["args", "oso", "sdraliases"]
    ∧ (mkRmanDiscoveryPluginWithFilter env f g).1.allowedExtensions =
      ["args", "oso", "sdraliases"]
    ∧ (discoverRuns parse walk n p).allowedExtensions =
      p.allowedExtensions := by
  refine ⟨rfl, rfl, ?_⟩
  rw [discoverRuns_fixed parse walk n p]

end RmanDiscovery
